import Mathlib

/-!
Shallow embedding of the resource-management app (src/app.py): the
SQLite-backed workload store (class DatabaseManager) and the assignment
policy (TaskScheduler.find_best_employee).  REAL columns are modelled as
rationals, TEXT columns as strings.  Row order in the `tasks` table is
kept newest-first, matching `get_all_tasks`'s ORDER BY created_at DESC
for rows inserted one at a time.
-/

/-- A row of the `employees` table: emp_id TEXT PRIMARY KEY,
current_workload REAL DEFAULT 0, next_free_time REAL DEFAULT 0.
The created_at column is display-only and not modelled. -/
structure Employee where
  emp_id : String
  current_workload : ℚ
  next_free_time : ℚ
deriving DecidableEq, Repr

/-- A row of the `tasks` table: task_id TEXT PRIMARY KEY, description,
duration REAL, assigned_to TEXT.  created_at is display-only. -/
structure TaskRow where
  task_id : String
  description : String
  duration : ℚ
  assigned_to : String
deriving DecidableEq, Repr

/-- The two tables of the database.  `tasks` is newest-first. -/
structure DB where
  employees : List Employee
  tasks : List TaskRow
deriving DecidableEq, Repr

/-- The state after init_database on a fresh file: both tables empty. -/
def emptyDB : DB := ⟨[], []⟩

/-- The employee snapshot dictionary built by get_all_employees:
the three stored columns plus the derived available_hours and
is_available fields. -/
structure Snapshot where
  emp_id : String
  current_workload : ℚ
  next_free_time : ℚ
  available_hours : ℚ
  is_available : Bool
deriving DecidableEq, Repr

/-- Python max of two rationals (max(0, x) in get_all_employees). -/
def pymax (a b : ℚ) : ℚ := if a < b then b else a

/-- One snapshot row of get_all_employees: available_hours = max(0, 9 - w),
is_available = (w < 9), with the capacity constant 9 hard-coded. -/
def Employee.toSnapshot (e : Employee) : Snapshot :=
  ⟨e.emp_id, e.current_workload, e.next_free_time,
    pymax 0 (9 - e.current_workload), decide (e.current_workload < 9)⟩

/-- DatabaseManager.get_all_employees. -/
def DB.get_all_employees (db : DB) : List Snapshot :=
  db.employees.map Employee.toSnapshot

/-- DatabaseManager.add_employee: INSERT INTO employees (emp_id) VALUES (?).
A duplicate primary key raises sqlite3.IntegrityError, which the method
catches and turns into False with the transaction never committed (no
state change); otherwise the row is inserted with the column defaults
current_workload = 0 and next_free_time = 0 and the method returns True. -/
def DB.add_employee (db : DB) (emp_id : String) : DB × Bool :=
  if db.employees.any (fun e => e.emp_id == emp_id) then (db, false)
  else ({ db with employees := db.employees ++ [⟨emp_id, 0, 0⟩] }, true)

/-- DatabaseManager.remove_employee: DELETE FROM tasks WHERE assigned_to = ?,
then DELETE FROM employees WHERE emp_id = ?.  Both DELETEs succeed (possibly
matching no rows) whether or not the employee exists. -/
def DB.remove_employee (db : DB) (emp_id : String) : DB :=
  { employees := db.employees.filter (fun e => e.emp_id != emp_id),
    tasks := db.tasks.filter (fun t => t.assigned_to != emp_id) }

/-- Row-level effect of the UPDATE statement in add_task on one employee
row: a row matching the WHERE clause gets current_workload increased by
the duration and next_free_time set to the OLD current_workload plus the
duration (both SET expressions read the pre-update row); other rows are
untouched. -/
def updateWorkload (assigned_to : String) (duration : ℚ) (e : Employee) :
    Employee :=
  if e.emp_id == assigned_to then
    { e with current_workload := e.current_workload + duration,
             next_free_time := e.current_workload + duration }
  else e

/-- DatabaseManager.add_task: INSERT the task row, then
UPDATE employees SET current_workload = current_workload + d,
next_free_time = current_workload + d WHERE emp_id = assigned_to.
The foreign key on assigned_to is not enforced (sqlite foreign_keys is
off by default), so the INSERT succeeds even for an unknown employee and
the UPDATE then matches no row.  A duplicate task_id raises
IntegrityError before commit, leaving the database unchanged, which the
guard models. -/
def DB.add_task (db : DB) (task_id description : String) (duration : ℚ)
    (assigned_to : String) : DB :=
  if db.tasks.any (fun t => t.task_id == task_id) then db
  else
    { tasks := ⟨task_id, description, duration, assigned_to⟩ :: db.tasks,
      employees := db.employees.map (updateWorkload assigned_to duration) }

/-- DatabaseManager.get_all_tasks: every task row, newest first. -/
def DB.get_all_tasks (db : DB) : List TaskRow := db.tasks

/-- DatabaseManager.reset_all_data: DELETE FROM tasks; DELETE FROM employees. -/
def DB.reset_all_data (_db : DB) : DB := ⟨[], []⟩

/-- Lookup of one employee row by primary key (the WHERE emp_id = ? of the
UPDATE in add_task; a primary key matches at most one row). -/
def DB.find_employee (db : DB) (emp_id : String) : Option Employee :=
  db.employees.find? (fun e => e.emp_id == emp_id)

/-- Lexicographic strict comparison of char lists, as Python compares
strings code point by code point. -/
def charListLt : List Char → List Char → Bool
  | [], [] => false
  | [], _ :: _ => true
  | _ :: _, [] => false
  | a :: as, b :: bs =>
    if a < b then true else if b < a then false else charListLt as bs

/-- Python string comparison s1 < s2. -/
def strLt (a b : String) : Bool := charListLt a.data b.data

/-- Python tuple comparison (k1, i1) <= (k2, i2) on (key, employee id)
pairs: strictly smaller key, or equal keys and id not greater. -/
def tupLe (a b : ℚ × String) : Bool :=
  decide (a.1 < b.1 ∨ (a.1 = b.1 ∧ strLt b.2 a.2 = false))

/-- Stable insertion into a sorted list (an element is placed before the
later-coming elements it compares less-or-equal to). -/
def insertLe {α : Type} (le : α → α → Bool) (a : α) : List α → List α
  | [] => [a]
  | b :: l => if le a b then a :: b :: l else b :: insertLe le a l

/-- A stable comparison sort, modelling Python's list.sort(). -/
def sortLe {α : Type} (le : α → α → Bool) : List α → List α
  | [] => []
  | a :: l => insertLe le a (sortLe le l)

/-- TaskScheduler.find_best_employee, as a function of the snapshot list
returned by get_all_employees and the task duration.  Phase 1 collects
(current_workload, emp_id) pairs of the employees whose available_hours
cover the duration, sorts them and takes the first id; if no employee
fits, phase 2 sorts (next_free_time, emp_id) pairs of all employees and
takes the first id.  An empty roster yields None. -/
def find_best_employee (employees : List Snapshot) (task_duration : ℚ) :
    Option String :=
  if employees.isEmpty then none
  else
    let available_employees :=
      (employees.filter (fun e => decide (task_duration ≤ e.available_hours))).map
        (fun e => (e.current_workload, e.emp_id))
    if !available_employees.isEmpty then
      ((sortLe tupLe available_employees).head?).map Prod.snd
    else
      let next_free_times :=
        employees.map (fun e => (e.next_free_time, e.emp_id))
      ((sortLe tupLe next_free_times).head?).map Prod.snd

/-- The four mutating entry points the UI can invoke against the store. -/
inductive Op where
  | addEmployee (emp_id : String)
  | addTask (task_id description : String) (duration : ℚ) (assigned_to : String)
  | removeEmployee (emp_id : String)
  | resetAll
deriving DecidableEq, Repr

/-- Effect of one entry point on the database. -/
def DB.step (db : DB) : Op → DB
  | .addEmployee i => (db.add_employee i).1
  | .addTask tid desc dur a => db.add_task tid desc dur a
  | .removeEmployee i => db.remove_employee i
  | .resetAll => db.reset_all_data

/-- The database reached by a sequence of operations from the fresh state. -/
def DB.run (ops : List Op) : DB := ops.foldl DB.step emptyDB

/-- Validity of an operation sequence from a given state: every task
creation names an employee that exists at that moment (the app's UI only
creates tasks for ids returned by find_best_employee, hence existing). -/
def validFromb : DB → List Op → Bool
  | _, [] => true
  | db, op :: ops =>
    (match op with
     | .addTask _ _ _ a => db.employees.any (fun e => e.emp_id == a)
     | _ => true) && validFromb (db.step op) ops

/-- Bookkeeping invariant: every employee's current_workload is the sum
of the durations of the tasks currently assigned to them. -/
def workloadInv (db : DB) : Prop :=
  ∀ e ∈ db.employees,
    e.current_workload =
      ((db.tasks.filter (fun t => t.assigned_to == e.emp_id)).map TaskRow.duration).sum

/-- Referential integrity: every task is assigned to an existing employee. -/
def refInv (db : DB) : Prop :=
  ∀ t ∈ db.tasks, db.employees.any (fun e => e.emp_id == t.assigned_to) = true

/-- Both store invariants together. -/
def DBInv (db : DB) : Prop := workloadInv db ∧ refInv db

/-! Order-theoretic facts about the Python-style comparisons. -/

theorem charListLt_irrefl : ∀ a : List Char, charListLt a a = false := by
  intro a
  induction a with
  | nil => rfl
  | cons x xs ih => simp [charListLt, lt_irrefl, ih]

theorem charListLt_trans : ∀ a b c : List Char,
    charListLt a b = true → charListLt b c = true → charListLt a c = true := by
  intro a
  induction a with
  | nil =>
    intro b c h1 h2
    cases b with
    | nil => simp [charListLt] at h1
    | cons y ys =>
      cases c with
      | nil => simp [charListLt] at h2
      | cons z zs => simp [charListLt]
  | cons x xs ih =>
    intro b c h1 h2
    cases b with
    | nil => simp [charListLt] at h1
    | cons y ys =>
      cases c with
      | nil => simp [charListLt] at h2
      | cons z zs =>
        simp only [charListLt] at h1 h2 ⊢
        rcases lt_trichotomy x y with hxy | hxy | hxy
        · rcases lt_trichotomy y z with hyz | hyz | hyz
          · simp [lt_trans hxy hyz]
          · subst hyz; simp [hxy]
          · simp [lt_asymm hyz, hyz] at h2
        · subst hxy
          simp only [lt_irrefl, if_false] at h1
          rcases lt_trichotomy x z with hxz | hxz | hxz
          · simp [hxz]
          · subst hxz
            simp only [lt_irrefl, if_false] at h2 ⊢
            exact ih ys zs h1 h2
          · simp [lt_asymm hxz, hxz] at h2
        · simp [lt_asymm hxy, hxy] at h1

theorem charListLt_connex : ∀ a b : List Char,
    charListLt a b = false → charListLt b a = false → a = b := by
  intro a
  induction a with
  | nil =>
    intro b h1 h2
    cases b with
    | nil => rfl
    | cons y ys => simp [charListLt] at h1
  | cons x xs ih =>
    intro b h1 h2
    cases b with
    | nil => simp [charListLt] at h2
    | cons y ys =>
      simp only [charListLt] at h1 h2
      rcases lt_trichotomy x y with h | h | h
      · simp [h] at h1
      · subst h
        simp only [lt_irrefl, if_false] at h1 h2
        rw [ih ys h1 h2]
      · simp [lt_asymm h, h] at h2

theorem strLt_irrefl (a : String) : strLt a a = false :=
  charListLt_irrefl a.data

theorem strLt_trans {a b c : String} (h1 : strLt a b = true)
    (h2 : strLt b c = true) : strLt a c = true :=
  charListLt_trans a.data b.data c.data h1 h2

theorem strLt_asymm {a b : String} (h : strLt a b = true) :
    strLt b a = false := by
  cases h2 : strLt b a with
  | false => rfl
  | true =>
    have := strLt_trans h h2
    rw [strLt_irrefl] at this
    exact absurd this (by simp)

theorem strLt_connex {a b : String} (h1 : strLt a b = false)
    (h2 : strLt b a = false) : a = b :=
  String.ext (charListLt_connex a.data b.data h1 h2)

theorem strLt_negtrans {a b c : String} (hca : strLt c a = true)
    (hcb : strLt c b = false) : strLt b a = true := by
  cases hbc : strLt b c with
  | true => exact strLt_trans hbc hca
  | false => rw [strLt_connex hcb hbc] at hca; exact hca

theorem tupLe_refl (a : ℚ × String) : tupLe a a = true := by
  simp [tupLe, strLt_irrefl]

theorem tupLe_total (a b : ℚ × String) : tupLe a b = true ∨ tupLe b a = true := by
  simp only [tupLe, decide_eq_true_eq]
  rcases lt_trichotomy a.1 b.1 with h | h | h
  · exact Or.inl (Or.inl h)
  · cases hs : strLt b.2 a.2 with
    | false => exact Or.inl (Or.inr ⟨h, rfl⟩)
    | true => exact Or.inr (Or.inr ⟨h.symm, strLt_asymm hs⟩)
  · exact Or.inr (Or.inl h)

theorem tupLe_trans {a b c : ℚ × String} (h1 : tupLe a b = true)
    (h2 : tupLe b c = true) : tupLe a c = true := by
  simp only [tupLe, decide_eq_true_eq] at h1 h2 ⊢
  rcases h1 with h1 | ⟨h1e, h1s⟩
  · rcases h2 with h2 | ⟨h2e, _⟩
    · exact Or.inl (lt_trans h1 h2)
    · exact Or.inl (h2e ▸ h1)
  · rcases h2 with h2 | ⟨h2e, h2s⟩
    · exact Or.inl (h1e ▸ h2)
    · refine Or.inr ⟨h1e.trans h2e, ?_⟩
      cases hs : strLt c.2 a.2 with
      | false => rfl
      | true => rw [strLt_negtrans hs h2s] at h1s; exact h1s

/-! Facts about the stable sort. -/

theorem mem_insertLe {α : Type} (le : α → α → Bool) (a x : α) :
    ∀ l : List α, x ∈ insertLe le a l ↔ x = a ∨ x ∈ l := by
  intro l
  induction l with
  | nil => simp [insertLe]
  | cons b l' ih =>
    simp only [insertLe]
    split
    · simp [List.mem_cons]
    · simp only [List.mem_cons, ih]
      tauto

theorem mem_sortLe {α : Type} (le : α → α → Bool) (x : α) :
    ∀ l : List α, x ∈ sortLe le l ↔ x ∈ l := by
  intro l
  induction l with
  | nil => simp [sortLe]
  | cons a l' ih => simp [sortLe, mem_insertLe, ih]

theorem insertLe_ne_nil {α : Type} (le : α → α → Bool) (a : α) :
    ∀ l : List α, insertLe le a l ≠ [] := by
  intro l
  cases l with
  | nil => simp [insertLe]
  | cons b l' =>
    simp only [insertLe]
    split <;> simp

theorem sortLe_eq_nil {α : Type} (le : α → α → Bool) :
    ∀ l : List α, sortLe le l = [] → l = [] := by
  intro l h
  cases l with
  | nil => rfl
  | cons a l' => exact absurd h (insertLe_ne_nil le a (sortLe le l'))

theorem head_sortLe_le {α : Type} (le : α → α → Bool)
    (htotal : ∀ a b : α, le a b = true ∨ le b a = true)
    (htrans : ∀ a b c : α, le a b = true → le b c = true → le a c = true) :
    ∀ (l : List α) (b : α) (t : List α),
      sortLe le l = b :: t → ∀ x ∈ l, le b x = true := by
  intro l
  induction l with
  | nil => intro b t h; simp [sortLe] at h
  | cons a l' ih =>
    intro b t h x hx
    have hrefl : ∀ y : α, le y y = true := fun y => (htotal y y).elim id id
    simp only [sortLe] at h
    cases hs : sortLe le l' with
    | nil =>
      have hl' : l' = [] := sortLe_eq_nil le l' hs
      rw [hs] at h
      simp only [insertLe] at h
      injection h with h1 h2
      rw [← h1]
      subst hl'
      rcases List.mem_singleton.mp hx with rfl
      exact hrefl x
    | cons c t' =>
      rw [hs] at h
      have hcmin : ∀ y ∈ l', le c y = true := ih c t' hs
      simp only [insertLe] at h
      by_cases hac : le a c = true
      · rw [if_pos hac] at h
        injection h with h1 h2
        rw [← h1]
        rcases List.mem_cons.mp hx with rfl | hx'
        · exact hrefl x
        · exact htrans _ _ _ hac (hcmin x hx')
      · rw [if_neg hac] at h
        injection h with h1 h2
        rw [← h1]
        rcases List.mem_cons.mp hx with rfl | hx'
        · rcases htotal x c with h' | h'
          · exact absurd h' hac
          · exact h'
        · exact hcmin x hx'

theorem sortLe_tupLe_head (l : List (ℚ × String)) (b : ℚ × String)
    (t : List (ℚ × String)) (h : sortLe tupLe l = b :: t) :
    b ∈ l ∧ ∀ x ∈ l, tupLe b x = true := by
  constructor
  · have hb : b ∈ sortLe tupLe l := by rw [h]; exact List.mem_cons_self b t
    exact (mem_sortLe tupLe b l).mp hb
  · exact head_sortLe_le tupLe tupLe_total (fun a b c h1 h2 => tupLe_trans h1 h2)
      l b t h

theorem find_best_employee_phase1_eq (emps : List Snapshot) (d : ℚ)
    (hne : emps ≠ [])
    (hav : (emps.filter fun e => decide (d ≤ e.available_hours)) ≠ []) :
    find_best_employee emps d =
      ((sortLe tupLe ((emps.filter fun e => decide (d ≤ e.available_hours)).map
          (fun e => (e.current_workload, e.emp_id)))).head?).map Prod.snd := by
  have h1 : emps.isEmpty = false := List.isEmpty_eq_false.mpr hne
  have h2 : ((emps.filter fun e => decide (d ≤ e.available_hours)).map
      (fun e => (e.current_workload, e.emp_id))).isEmpty = false :=
    List.isEmpty_eq_false.mpr (by simpa [List.map_eq_nil_iff] using hav)
  simp only [find_best_employee, h1, h2, Bool.false_eq_true, if_false,
    Bool.not_false, if_true]

theorem find_best_employee_phase2_eq (emps : List Snapshot) (d : ℚ)
    (hne : emps ≠ [])
    (hav : (emps.filter fun e => decide (d ≤ e.available_hours)) = []) :
    find_best_employee emps d =
      ((sortLe tupLe (emps.map (fun e => (e.next_free_time, e.emp_id)))).head?).map
        Prod.snd := by
  have h1 : emps.isEmpty = false := List.isEmpty_eq_false.mpr hne
  simp only [find_best_employee, h1, hav, Bool.false_eq_true, if_false,
    List.map_nil, List.isEmpty_nil, Bool.not_true, if_true]

/-- C3: for every employee snapshot list and duration d, if at least one
employee has available_hours at least d, the policy returns the id of an
employee that fits the task and is smallest under the ordering
(current_workload, id) among all employees that fit. -/
theorem c3_phase1_least_loaded (emps : List Snapshot) (d : ℚ)
    (h : ∃ e0 ∈ emps, d ≤ e0.available_hours) :
    ∃ e ∈ emps, d ≤ e.available_hours ∧
      find_best_employee emps d = some e.emp_id ∧
      ∀ f ∈ emps, d ≤ f.available_hours →
        tupLe (e.current_workload, e.emp_id) (f.current_workload, f.emp_id) = true := by
  obtain ⟨e0, he0, hfit⟩ := h
  have hne : emps ≠ [] := by rintro rfl; exact (List.not_mem_nil e0) he0
  have he0f : e0 ∈ emps.filter (fun e => decide (d ≤ e.available_hours)) :=
    List.mem_filter.mpr ⟨he0, by simpa using hfit⟩
  have hfne : emps.filter (fun e => decide (d ≤ e.available_hours)) ≠ [] := by
    intro h'
    rw [h'] at he0f
    exact (List.not_mem_nil e0) he0f
  have heq := find_best_employee_phase1_eq emps d hne hfne
  cases hs : sortLe tupLe ((emps.filter fun e => decide (d ≤ e.available_hours)).map
      (fun e => (e.current_workload, e.emp_id))) with
  | nil =>
    have h0 := sortLe_eq_nil _ _ hs
    rw [List.map_eq_nil_iff] at h0
    exact absurd h0 hfne
  | cons b t =>
    have hb := sortLe_tupLe_head _ b t hs
    obtain ⟨e, hef, hkey⟩ := List.mem_map.mp hb.1
    have hee : e ∈ emps := (List.mem_filter.mp hef).1
    have hefit : d ≤ e.available_hours := by
      have h2 := (List.mem_filter.mp hef).2
      simpa using h2
    refine ⟨e, hee, hefit, ?_, ?_⟩
    · rw [heq, hs]
      simp [← hkey]
    · intro f hf hffit
      have hfa : (f.current_workload, f.emp_id) ∈
          (emps.filter fun e => decide (d ≤ e.available_hours)).map
            (fun e => (e.current_workload, e.emp_id)) :=
        List.mem_map.mpr ⟨f, List.mem_filter.mpr ⟨hf, by simpa using hffit⟩, rfl⟩
      rw [hkey]
      exact hb.2 _ hfa

/-- C4: for every non-empty snapshot list and duration d, if no employee
has available_hours at least d, the policy still returns the id of an
employee, one smallest under the ordering (next_free_time, id). -/
theorem c4_phase2_overflow (emps : List Snapshot) (d : ℚ)
    (hne : emps ≠ [])
    (hnofit : ∀ e ∈ emps, ¬ d ≤ e.available_hours) :
    ∃ e ∈ emps, find_best_employee emps d = some e.emp_id ∧
      ∀ f ∈ emps, tupLe (e.next_free_time, e.emp_id) (f.next_free_time, f.emp_id) = true := by
  have hflt : emps.filter (fun e => decide (d ≤ e.available_hours)) = [] :=
    List.filter_eq_nil_iff.mpr (fun e he => by simpa using hnofit e he)
  have heq := find_best_employee_phase2_eq emps d hne hflt
  cases hs : sortLe tupLe (emps.map (fun e => (e.next_free_time, e.emp_id))) with
  | nil =>
    have h0 := sortLe_eq_nil _ _ hs
    rw [List.map_eq_nil_iff] at h0
    exact absurd h0 hne
  | cons b t =>
    have hb := sortLe_tupLe_head _ b t hs
    obtain ⟨e, hee, hkey⟩ := List.mem_map.mp hb.1
    refine ⟨e, hee, ?_, ?_⟩
    · rw [heq, hs]
      simp [← hkey]
    · intro f hf
      have hfa : (f.next_free_time, f.emp_id) ∈
          emps.map (fun e => (e.next_free_time, e.emp_id)) :=
        List.mem_map.mpr ⟨f, hf, rfl⟩
      rw [hkey]
      exact hb.2 _ hfa

/-- C8: with an empty roster the policy returns the distinguished
"unavailable" result None, for every duration, without any fault. -/
theorem c8_empty_roster_none (d : ℚ) : find_best_employee [] d = none := rfl

/-- C9: the assignment policy is deterministic: two invocations on
identical snapshot lists and identical durations return the same id. -/
theorem c9_policy_deterministic (emps1 emps2 : List Snapshot) (d1 d2 : ℚ)
    (hsnap : emps1 = emps2) (hdur : d1 = d2) :
    find_best_employee emps1 d1 = find_best_employee emps2 d2 := by
  rw [hsnap, hdur]

/-! Facts about the workload store. -/

theorem any_empId_map (l : List Employee) (f : Employee → Employee)
    (hf : ∀ e, (f e).emp_id = e.emp_id) (s : String) :
    (l.map f).any (fun e => e.emp_id == s) = l.any (fun e => e.emp_id == s) := by
  induction l with
  | nil => rfl
  | cons e l' ih => simp [List.any_cons, hf, ih]

theorem find?_empId_map (l : List Employee) (f : Employee → Employee)
    (hf : ∀ e, (f e).emp_id = e.emp_id) (s : String) :
    (l.map f).find? (fun e => e.emp_id == s) =
      (l.find? (fun e => e.emp_id == s)).map f := by
  induction l with
  | nil => rfl
  | cons e l' ih =>
    cases h : (e.emp_id == s) with
    | true =>
      rw [List.map_cons,
        @List.find?_cons_of_pos _ (fun e => e.emp_id == s) (f e) (l'.map f)
          (by simp [hf, h]),
        @List.find?_cons_of_pos _ (fun e => e.emp_id == s) e l' h]
      rfl
    | false =>
      rw [List.map_cons,
        @List.find?_cons_of_neg _ (fun e => e.emp_id == s) (f e) (l'.map f)
          (by simp [hf, h]),
        @List.find?_cons_of_neg _ (fun e => e.emp_id == s) e l' (by simp [h]), ih]

theorem filter_assigned_of_ne (ts : List TaskRow) (i x : String) (hx : x ≠ i) :
    (ts.filter (fun t => t.assigned_to != i)).filter (fun t => t.assigned_to == x) =
      ts.filter (fun t => t.assigned_to == x) := by
  induction ts with
  | nil => rfl
  | cons t ts' ih =>
    by_cases h : t.assigned_to = x
    · have h1 : (t.assigned_to != i) = true := by simp [h, hx]
      rw [List.filter_cons, if_pos h1, List.filter_cons, if_pos (by simp [h]),
        List.filter_cons, if_pos (by simp [h]), ih]
    · by_cases h2 : t.assigned_to = i
      · rw [List.filter_cons, if_neg (by simp [h2]), List.filter_cons,
          if_neg (by simp [h]), ih]
      · rw [List.filter_cons, if_pos (by simp [h2]), List.filter_cons,
          if_neg (by simp [h]), List.filter_cons, if_neg (by simp [h]), ih]

theorem DBInv_empty : DBInv emptyDB :=
  ⟨fun e he => absurd he (List.not_mem_nil e),
   fun t ht => absurd ht (List.not_mem_nil t)⟩

theorem DBInv_add_employee (db : DB) (i : String) (h : DBInv db) :
    DBInv (db.add_employee i).1 := by
  obtain ⟨hw, hr⟩ := h
  unfold DB.add_employee
  by_cases hg : db.employees.any (fun e => e.emp_id == i) = true
  · rw [if_pos hg]
    exact ⟨hw, hr⟩
  · rw [if_neg hg]
    constructor
    · intro e he
      rcases List.mem_append.mp he with he' | he'
      · exact hw e he'
      · rcases List.mem_singleton.mp he' with rfl
        have hnil : db.tasks.filter
            (fun t => t.assigned_to == (⟨i, 0, 0⟩ : Employee).emp_id) = [] := by
          apply List.filter_eq_nil_iff.mpr
          intro t ht hcontra
          have hta : t.assigned_to = i := by simpa using hcontra
          have hany := hr t ht
          rw [hta] at hany
          exact hg hany
        rw [hnil]
        rfl
    · intro t ht
      simp [List.any_append, hr t ht]

theorem updateWorkload_empId (a : String) (dur : ℚ) (x : Employee) :
    (updateWorkload a dur x).emp_id = x.emp_id := by
  unfold updateWorkload
  by_cases hx : (x.emp_id == a) = true <;> simp [hx]

theorem DBInv_add_task (db : DB) (tid desc : String) (dur : ℚ) (a : String)
    (ha : db.employees.any (fun e => e.emp_id == a) = true) (h : DBInv db) :
    DBInv (db.add_task tid desc dur a) := by
  obtain ⟨hw, hr⟩ := h
  unfold DB.add_task
  by_cases hg : db.tasks.any (fun t => t.task_id == tid) = true
  · rw [if_pos hg]
    exact ⟨hw, hr⟩
  · rw [if_neg hg]
    constructor
    · intro e' he'
      obtain ⟨e, he, rfl⟩ := List.mem_map.mp he'
      unfold updateWorkload
      by_cases hid : (e.emp_id == a) = true
      · have hea : e.emp_id = a := by simpa using hid
        rw [if_pos hid]
        rw [List.filter_cons, if_pos (by simpa using hea.symm)]
        rw [List.map_cons, List.sum_cons]
        have := hw e he
        simp only []
        rw [this]
        exact add_comm _ _
      · rw [if_neg hid]
        have hne : ¬ e.emp_id = a := by simpa using hid
        rw [List.filter_cons, if_neg (by simpa using Ne.symm hne)]
        exact hw e he
    · intro t ht
      rcases List.mem_cons.mp ht with rfl | ht'
      · rw [any_empId_map _ _ (updateWorkload_empId a dur)]
        exact ha
      · rw [any_empId_map _ _ (updateWorkload_empId a dur)]
        exact hr t ht'

theorem DBInv_remove_employee (db : DB) (i : String) (h : DBInv db) :
    DBInv (db.remove_employee i) := by
  obtain ⟨hw, hr⟩ := h
  constructor
  · intro e he
    have hmem := List.mem_filter.mp he
    have hne : e.emp_id ≠ i := by simpa using hmem.2
    show e.current_workload = _
    rw [show (db.remove_employee i).tasks =
        db.tasks.filter (fun t => t.assigned_to != i) from rfl]
    rw [filter_assigned_of_ne db.tasks i e.emp_id hne]
    exact hw e hmem.1
  · intro t ht
    have hmem := List.mem_filter.mp ht
    have := hr t hmem.1
    obtain ⟨e, he, hpe⟩ := List.any_eq_true.mp this
    apply List.any_eq_true.mpr
    have hei : e.emp_id = t.assigned_to := by simpa using hpe
    have hne : t.assigned_to ≠ i := by simpa using hmem.2
    refine ⟨e, List.mem_filter.mpr ⟨he, ?_⟩, hpe⟩
    simp [hei, hne]

theorem DBInv_step (db : DB) (op : Op)
    (hvalid : (match op with
      | .addTask _ _ _ a => db.employees.any (fun e => e.emp_id == a)
      | _ => true) = true)
    (h : DBInv db) : DBInv (db.step op) := by
  cases op with
  | addEmployee i => exact DBInv_add_employee db i h
  | addTask tid desc dur a => exact DBInv_add_task db tid desc dur a hvalid h
  | removeEmployee i => exact DBInv_remove_employee db i h
  | resetAll =>
    exact ⟨fun e he => absurd he (List.not_mem_nil e),
      fun t ht => absurd ht (List.not_mem_nil t)⟩

theorem DBInv_foldl (ops : List Op) : ∀ db : DB, DBInv db →
    validFromb db ops = true → DBInv (ops.foldl DB.step db) := by
  induction ops with
  | nil =>
    intro db h _
    simpa using h
  | cons op ops' ih =>
    intro db h hv
    simp only [validFromb, Bool.and_eq_true] at hv
    rw [List.foldl_cons]
    exact ih (db.step op) (DBInv_step db op hv.1 h) hv.2

/-- C1: for every sequence of operations (employee creations, task
creations whose assigned_to references an existing employee, employee
removals, resets) starting from an empty store, every employee's
current_workload equals the sum of duration over all tasks currently
assigned to that employee. -/
theorem c1_workload_invariant (ops : List Op)
    (h : validFromb emptyDB ops = true) : workloadInv (DB.run ops) :=
  (DBInv_foldl ops emptyDB DBInv_empty h).1

/-- C2: after add_task on an existing employee (with a fresh task id),
the employee's next_free_time equals their pre-call current_workload
plus the duration, which is numerically identical to their new
current_workload. -/
theorem c2_add_task_next_free_time (db : DB) (tid desc : String) (dur : ℚ)
    (a : String) (e : Employee)
    (hfresh : db.tasks.any (fun t => t.task_id == tid) = false)
    (hfind : db.find_employee a = some e) :
    ∃ e', (db.add_task tid desc dur a).find_employee a = some e' ∧
      e'.next_free_time = e.current_workload + dur ∧
      e'.current_workload = e.current_workload + dur ∧
      e'.next_free_time = e'.current_workload := by
  have hpe : (e.emp_id == a) = true :=
    @List.find?_some Employee (fun x => x.emp_id == a) e db.employees hfind
  refine ⟨updateWorkload a dur e, ?_, ?_, ?_, ?_⟩
  · show (db.add_task tid desc dur a).employees.find? (fun x => x.emp_id == a) =
      some (updateWorkload a dur e)
    unfold DB.add_task
    rw [if_neg (by simp [hfresh])]
    show (db.employees.map (updateWorkload a dur)).find? (fun x => x.emp_id == a) =
      some (updateWorkload a dur e)
    rw [find?_empId_map _ _ (updateWorkload_empId a dur) a,
      show db.employees.find? (fun x => x.emp_id == a) = some e from hfind]
    rfl
  · unfold updateWorkload
    rw [if_pos hpe]
  · unfold updateWorkload
    rw [if_pos hpe]
  · unfold updateWorkload
    rw [if_pos hpe]

/-- C5 as stated is false on the code: add_task performs no validation of
assigned_to.  With a store holding only employee A, creating a task
assigned to the non-existent employee B raises no error, inserts the
task row (dangling reference), and leaves the employees table unchanged. -/
theorem c5_counterexample :
    DB.find_employee ⟨[⟨"A", 0, 0⟩], []⟩ "B" = none ∧
    (DB.add_task ⟨[⟨"A", 0, 0⟩], []⟩ "TASK_001" "demo" 2 "B").tasks =
      [⟨"TASK_001", "demo", 2, "B"⟩] ∧
    (DB.add_task ⟨[⟨"A", 0, 0⟩], []⟩ "TASK_001" "demo" 2 "B").employees =
      [⟨"A", 0, 0⟩] := by
  refine ⟨rfl, rfl, ?_⟩
  decide

/-- C5 amended: add_task does not validate assigned_to.  When assigned_to
references no existing employee (and the task id is fresh), the call
succeeds silently, inserts the task row with the dangling reference, and
updates no employee. -/
theorem c5_amended_no_validation (db : DB) (tid desc : String) (dur : ℚ)
    (a : String)
    (hfresh : db.tasks.any (fun t => t.task_id == tid) = false)
    (hmissing : db.employees.all (fun e => e.emp_id != a) = true) :
    (db.add_task tid desc dur a).tasks = ⟨tid, desc, dur, a⟩ :: db.tasks ∧
    (db.add_task tid desc dur a).employees = db.employees := by
  unfold DB.add_task
  rw [if_neg (by simp [hfresh])]
  refine ⟨rfl, ?_⟩
  show db.employees.map (updateWorkload a dur) = db.employees
  have hid : ∀ e ∈ db.employees, updateWorkload a dur e = id e := by
    intro e he
    have := List.all_eq_true.mp hmissing e he
    simp only [id_eq, updateWorkload]
    rw [if_neg (by simpa using this)]
  rw [List.map_congr_left hid, List.map_id]

/-- C6: creating an employee whose id already (uniquely) exists reports
failure and changes no state, and exactly one record with that id
remains; creating a fresh id succeeds and inserts the employee with
current_workload 0 and next_free_time 0. -/
theorem c6_add_employee (db : DB) (i : String) :
    (db.employees.countP (fun e => e.emp_id == i) = 1 →
      (db.add_employee i).2 = false ∧ (db.add_employee i).1 = db ∧
      (db.add_employee i).1.employees.countP (fun e => e.emp_id == i) = 1) ∧
    (db.employees.all (fun e => e.emp_id != i) = true →
      (db.add_employee i).2 = true ∧
      (db.add_employee i).1.employees = db.employees ++ [⟨i, 0, 0⟩]) := by
  constructor
  · intro hcount
    have hany : db.employees.any (fun e => e.emp_id == i) = true := by
      cases h : db.employees.any (fun e => e.emp_id == i) with
      | true => rfl
      | false =>
        have h0 : db.employees.countP (fun e => e.emp_id == i) = 0 :=
          List.countP_eq_zero.mpr (List.any_eq_false.mp h)
        rw [h0] at hcount
        exact absurd hcount one_ne_zero.symm
    unfold DB.add_employee
    rw [if_pos hany]
    exact ⟨rfl, rfl, hcount⟩
  · intro hall
    have hany : ¬ db.employees.any (fun e => e.emp_id == i) = true := by
      intro h
      obtain ⟨e, he, hpe⟩ := List.any_eq_true.mp h
      have := List.all_eq_true.mp hall e he
      rw [bne_eq_false_iff_eq.mpr (by simpa using hpe)] at this
      exact Bool.false_ne_true this
    unfold DB.add_employee
    rw [if_neg hany]
    exact ⟨rfl, rfl⟩

/-- C7: after remove_employee(id) the store holds no employee with that
id and no task assigned to it; removing again is the same state
(idempotent), and on a store without that id (and, as referential
integrity guarantees, without tasks assigned to it) the call is a no-op. -/
theorem c7_remove_employee_cascade (db : DB) (i : String) :
    (∀ e ∈ (db.remove_employee i).employees, e.emp_id ≠ i) ∧
    (∀ t ∈ (db.remove_employee i).get_all_tasks, t.assigned_to ≠ i) ∧
    ((db.remove_employee i).remove_employee i = db.remove_employee i) ∧
    (db.employees.all (fun e => e.emp_id != i) = true →
      db.tasks.all (fun t => t.assigned_to != i) = true →
      db.remove_employee i = db) := by
  refine ⟨?_, ?_, ?_, ?_⟩
  · intro e he
    have := (List.mem_filter.mp he).2
    simpa using this
  · intro t ht
    have := (List.mem_filter.mp ht).2
    simpa using this
  · show (⟨_, _⟩ : DB) = ⟨_, _⟩
    rw [DB.mk.injEq]
    constructor
    · rw [show (db.remove_employee i).employees =
          db.employees.filter (fun e => e.emp_id != i) from rfl]
      rw [List.filter_filter]
      exact List.filter_congr (fun e _ => Bool.and_self _)
    · rw [show (db.remove_employee i).tasks =
          db.tasks.filter (fun t => t.assigned_to != i) from rfl]
      rw [List.filter_filter]
      exact List.filter_congr (fun t _ => Bool.and_self _)
  · intro hemp htask
    show (⟨_, _⟩ : DB) = ⟨_, _⟩
    rw [DB.mk.injEq]
    exact ⟨List.filter_eq_self.mpr (List.all_eq_true.mp hemp),
      List.filter_eq_self.mpr (List.all_eq_true.mp htask)⟩

/-- C10: remove_employee changes nothing outside the removed employee:
every employee record with a different id stays in the store unchanged,
every task assigned to a different employee stays unchanged, and no
record appears that was not there before. -/
theorem c10_remove_employee_frame (db : DB) (i : String) :
    (∀ e ∈ db.employees, e.emp_id ≠ i → e ∈ (db.remove_employee i).employees) ∧
    (∀ e ∈ (db.remove_employee i).employees, e ∈ db.employees) ∧
    (∀ t ∈ db.tasks, t.assigned_to ≠ i → t ∈ (db.remove_employee i).tasks) ∧
    (∀ t ∈ (db.remove_employee i).tasks, t ∈ db.tasks) := by
  refine ⟨?_, ?_, ?_, ?_⟩
  · intro e he hne
    exact List.mem_filter.mpr ⟨he, by simpa using hne⟩
  · intro e he
    exact (List.mem_filter.mp he).1
  · intro t ht hne
    exact List.mem_filter.mpr ⟨ht, by simpa using hne⟩
  · intro t ht
    exact (List.mem_filter.mp ht).1

/-- Witness for C1 at a concrete operation sequence. -/
theorem c1_witness :
    workloadInv (DB.run [.addEmployee "A", .addTask "TASK_001" "write" 3 "A",
      .addEmployee "B", .addTask "TASK_002" "review" 2 "B",
      .removeEmployee "A"]) :=
  c1_workload_invariant _ (by decide)

/-- Witness for C2 on a store holding employee A with workload 2. -/
theorem c2_witness :
    ∃ e', (DB.add_task ⟨[⟨"A", 2, 2⟩], []⟩ "TASK_001" "demo" 3 "A").find_employee
        "A" = some e' ∧
      e'.next_free_time = (2 : ℚ) + 3 ∧
      e'.current_workload = (2 : ℚ) + 3 ∧
      e'.next_free_time = e'.current_workload :=
  c2_add_task_next_free_time ⟨[⟨"A", 2, 2⟩], []⟩ "TASK_001" "demo" 3 "A"
    ⟨"A", 2, 2⟩ (by decide) (by decide)

/-- Witness for C3: A(workload 2, 7 hours free) and B(workload 5, 4 hours
free) with a task of duration 3; the policy picks A. -/
theorem c3_witness :
    (∃ e ∈ [(⟨"A", 2, 2, 7, true⟩ : Snapshot), ⟨"B", 5, 5, 4, true⟩],
        (3 : ℚ) ≤ e.available_hours ∧
        find_best_employee [⟨"A", 2, 2, 7, true⟩, ⟨"B", 5, 5, 4, true⟩] 3 =
          some e.emp_id ∧
        ∀ f ∈ [(⟨"A", 2, 2, 7, true⟩ : Snapshot), ⟨"B", 5, 5, 4, true⟩],
          (3 : ℚ) ≤ f.available_hours →
          tupLe (e.current_workload, e.emp_id) (f.current_workload, f.emp_id) =
            true) ∧
    find_best_employee [⟨"A", 2, 2, 7, true⟩, ⟨"B", 5, 5, 4, true⟩] 3 =
      some "A" :=
  ⟨c3_phase1_least_loaded _ 3 ⟨⟨"A", 2, 2, 7, true⟩, by decide, by decide⟩,
   by decide⟩

/-- Witness for C4: both employees fully loaded (workload 9); the policy
still returns A, the tie-break minimum. -/
theorem c4_witness :
    (∃ e ∈ [(⟨"A", 9, 9, 0, false⟩ : Snapshot), ⟨"B", 9, 9, 0, false⟩],
        find_best_employee [⟨"A", 9, 9, 0, false⟩, ⟨"B", 9, 9, 0, false⟩] 1 =
          some e.emp_id ∧
        ∀ f ∈ [(⟨"A", 9, 9, 0, false⟩ : Snapshot), ⟨"B", 9, 9, 0, false⟩],
          tupLe (e.next_free_time, e.emp_id) (f.next_free_time, f.emp_id) =
            true) ∧
    find_best_employee [⟨"A", 9, 9, 0, false⟩, ⟨"B", 9, 9, 0, false⟩] 1 =
      some "A" :=
  ⟨c4_phase2_overflow _ 1 (by decide) (by decide), by decide⟩

/-- Witness for the amended C5 on a store holding only employee A. -/
theorem c5_witness :
    (DB.add_task ⟨[⟨"A", 0, 0⟩], []⟩ "TASK_002" "demo2" 2 "B").tasks =
      ⟨"TASK_002", "demo2", 2, "B"⟩ :: ([] : List TaskRow) ∧
    (DB.add_task ⟨[⟨"A", 0, 0⟩], []⟩ "TASK_002" "demo2" 2 "B").employees =
      [⟨"A", 0, 0⟩] :=
  c5_amended_no_validation ⟨[⟨"A", 0, 0⟩], []⟩ "TASK_002" "demo2" 2 "B"
    (by decide) (by decide)

/-- Witness for C6: duplicate creation of E1 fails without state change;
fresh creation of E2 succeeds with zeroed fields. -/
theorem c6_witness :
    ((DB.add_employee ⟨[⟨"E1", 0, 0⟩], []⟩ "E1").2 = false ∧
      (DB.add_employee ⟨[⟨"E1", 0, 0⟩], []⟩ "E1").1 = ⟨[⟨"E1", 0, 0⟩], []⟩ ∧
      (DB.add_employee ⟨[⟨"E1", 0, 0⟩], []⟩ "E1").1.employees.countP
        (fun e => e.emp_id == "E1") = 1) ∧
    ((DB.add_employee ⟨[⟨"E1", 0, 0⟩], []⟩ "E2").2 = true ∧
      (DB.add_employee ⟨[⟨"E1", 0, 0⟩], []⟩ "E2").1.employees =
        [⟨"E1", 0, 0⟩] ++ [⟨"E2", 0, 0⟩]) :=
  ⟨(c6_add_employee ⟨[⟨"E1", 0, 0⟩], []⟩ "E1").1 (by decide),
   (c6_add_employee ⟨[⟨"E1", 0, 0⟩], []⟩ "E2").2 (by decide)⟩

/-- Witness for C7 on a two-employee store with one task each. -/
theorem c7_witness :
    ((⟨"T2", "y", 2, "B"⟩ : TaskRow).assigned_to ≠ "A") ∧
    (DB.remove_employee (DB.remove_employee
        ⟨[⟨"A", 0, 0⟩, ⟨"B", 0, 0⟩],
         [⟨"T1", "x", 1, "A"⟩, ⟨"T2", "y", 2, "B"⟩]⟩ "A") "A" =
      DB.remove_employee
        ⟨[⟨"A", 0, 0⟩, ⟨"B", 0, 0⟩],
         [⟨"T1", "x", 1, "A"⟩, ⟨"T2", "y", 2, "B"⟩]⟩ "A") ∧
    (DB.remove_employee ⟨[⟨"B", 0, 0⟩], [⟨"T2", "y", 2, "B"⟩]⟩ "A" =
      ⟨[⟨"B", 0, 0⟩], [⟨"T2", "y", 2, "B"⟩]⟩) :=
  ⟨(c7_remove_employee_cascade ⟨[⟨"A", 0, 0⟩, ⟨"B", 0, 0⟩],
      [⟨"T1", "x", 1, "A"⟩, ⟨"T2", "y", 2, "B"⟩]⟩ "A").2.1
      ⟨"T2", "y", 2, "B"⟩ (by decide),
   (c7_remove_employee_cascade ⟨[⟨"A", 0, 0⟩, ⟨"B", 0, 0⟩],
      [⟨"T1", "x", 1, "A"⟩, ⟨"T2", "y", 2, "B"⟩]⟩ "A").2.2.1,
   (c7_remove_employee_cascade ⟨[⟨"B", 0, 0⟩], [⟨"T2", "y", 2, "B"⟩]⟩ "A").2.2.2
     (by decide) (by decide)⟩

/-- Witness for C9 at one concrete snapshot and duration. -/
theorem c9_witness :
    find_best_employee [(⟨"A", 2, 2, 7, true⟩ : Snapshot)] 3 =
      find_best_employee [⟨"A", 2, 2, 7, true⟩] 3 :=
  c9_policy_deterministic _ _ _ _ rfl rfl

/-- Witness for C10: employee B and task T2 survive removing A unchanged. -/
theorem c10_witness :
    ((⟨"B", 0, 0⟩ : Employee) ∈ (DB.remove_employee
        ⟨[⟨"A", 0, 0⟩, ⟨"B", 0, 0⟩],
         [⟨"T1", "x", 1, "A"⟩, ⟨"T2", "y", 2, "B"⟩]⟩ "A").employees) ∧
    ((⟨"T2", "y", 2, "B"⟩ : TaskRow) ∈ (DB.remove_employee
        ⟨[⟨"A", 0, 0⟩, ⟨"B", 0, 0⟩],
         [⟨"T1", "x", 1, "A"⟩, ⟨"T2", "y", 2, "B"⟩]⟩ "A").tasks) :=
  ⟨(c10_remove_employee_frame _ "A").1 ⟨"B", 0, 0⟩ (by decide) (by decide),
   (c10_remove_employee_frame _ "A").2.2.1 ⟨"T2", "y", 2, "B"⟩ (by decide)
     (by decide)⟩
